import Mathlib

/-!
Verification of the lekube certificate manager (jmhodges/lekube) against its
natural-language specification.  The Go source is shallowly embedded: pure
functions become Lean functions, the mutable pieces of state (the responder
body map, the account memo, the config loader state) become explicit state
passing, and calls into external libraries (the Kubernetes API, the ACME
protocol client, `encoding/pem`, `crypto/x509`, JSON decoding) become oracle
parameters or small explicit models of the relevant standard-library
behaviour.  Go maps are embedded as association lists with Go update
semantics (`assocSet` replaces the binding for an existing key in place and
appends a fresh one otherwise).
-/

namespace Lekube

/-! ## Association-list model of Go maps -/

/-- Lookup in an association list, the model of reading a Go map
(`m[k]` with the `ok` flag given by `Option`). -/
def assocFind {κ : Type} [DecidableEq κ] {α : Type} : List (κ × α) → κ → Option α
  | [], _ => none
  | (k, v) :: rest, k0 => if k = k0 then some v else assocFind rest k0

/-- Update in an association list, the model of the Go map write `m[k] = v`:
the binding for an existing key is replaced, a missing key is appended. -/
def assocSet {κ : Type} [DecidableEq κ] {α : Type} : List (κ × α) → κ → α → List (κ × α)
  | [], k0, v0 => [(k0, v0)]
  | (k, v) :: rest, k0, v0 =>
      if k = k0 then (k, v0) :: rest else (k, v) :: assocSet rest k0 v0

theorem assocFind_assocSet_self {κ : Type} [DecidableEq κ] {α : Type}
    (m : List (κ × α)) (k : κ) (v : α) : assocFind (assocSet m k v) k = some v := by
  induction m with
  | nil => simp [assocSet, assocFind]
  | cons hd rest ih =>
      obtain ⟨k1, v1⟩ := hd
      by_cases h : k1 = k
      · subst h
        simp [assocSet, assocFind]
      · simp [assocSet, assocFind, h, ih]

theorem assocFind_assocSet_of_ne {κ : Type} [DecidableEq κ] {α : Type}
    (m : List (κ × α)) (k k2 : κ) (v : α) (h : k2 ≠ k) :
    assocFind (assocSet m k v) k2 = assocFind m k2 := by
  have hne : ¬ k = k2 := fun hk => h hk.symm
  induction m with
  | nil => simp [assocSet, assocFind, hne]
  | cons hd rest ih =>
      obtain ⟨k1, v1⟩ := hd
      by_cases h1 : k1 = k
      · subst h1
        simp [assocSet, assocFind, hne]
      · by_cases h2 : k1 = k2
        · subst h2
          simp [assocSet, assocFind, h1]
        · simp [assocSet, assocFind, h1, h2, ih]

/-! ## Data model: Kubernetes secrets and the TLS snapshot (main.go) -/

/-- A Kubernetes `Secret` as the adapter sees it: the object name, the
remaining object metadata (labels, annotations, resource version, ...)
collapsed into one opaque field, and the `Data` map from keys to byte
strings.  Byte strings are modelled as Lean strings. -/
structure K8sSecret where
  metaName : String
  metaRest : String
  dataMap : List (String × String)
  deriving DecidableEq, Repr

/-- A parsed x509 certificate, restricted to the fields the adapter's leaf
selection reads. -/
structure X509Cert where
  isCA : Bool
  payload : String
  deriving DecidableEq, Repr

/-- The TLS secret snapshot from main.go: the secret record plus the
optional parsed leaf certificate. -/
structure TlsSecret where
  cert : Option X509Cert
  secret : K8sSecret
  deriving DecidableEq, Repr

/-- Result of `client.Get` for a secret, as distinguished by
`fetchK8SSecret` via `kerrors.IsNotFound`. -/
inductive GetSecretResult where
  | found (sec : K8sSecret)
  | notFound
  | errored (msg : String)
  deriving DecidableEq, Repr

/-- A PEM block as returned by `encoding/pem.Decode`. -/
structure PemBlock where
  blockType : String
  bytes : String
  deriving DecidableEq, Repr

/-- Outcome of `fetchK8SSecret`: a Go panic (runtime nil-pointer
dereference), an error return, or a successful return of an optional
snapshot. -/
inductive FetchOutcome where
  | panicked
  | failed (msg : String)
  | ok (snap : Option TlsSecret)
  deriving DecidableEq, Repr

/-- The leaf-selection loop of `fetchK8SSecret` (main.go): the first
certificate with `IsCA = false`, if any. -/
def firstNonCA (certs : List X509Cert) : Option X509Cert :=
  certs.find? (fun c => !c.isCA)

/-- Embeds `fetchK8SSecret` (main.go).  `pemDecode` models
`encoding/pem.Decode` (returning `none` when the input holds no PEM block,
in which case Go's `block` is nil) and `parseCertificates` models
`x509.ParseCertificates` on the decoded block bytes.  The Go code reads
`block.Bytes` without checking `block` for nil, so a `none` from
`pemDecode` is a nil-pointer dereference: outcome `panicked`. -/
def fetchK8SSecret (pemDecode : String → Option PemBlock)
    (parseCertificates : String → Except String (List X509Cert))
    (res : GetSecretResult) : FetchOutcome :=
  match res with
  | .errored msg => .failed msg
  | .notFound => .ok none
  | .found sec =>
      match assocFind sec.dataMap "tls.crt" with
      | none => .ok none
      | some b =>
          match pemDecode b with
          | none => .panicked
          | some block =>
              match parseCertificates block.bytes with
              | .error _ => .ok (some { cert := none, secret := sec })
              | .ok certs => .ok (some { cert := firstNonCA certs, secret := sec })

/-- The new-certificate artifact (main.go `newCert`): PEM chain bytes and
PEM private-key bytes. -/
structure NewCert where
  cert : String
  key : String
  deriving DecidableEq, Repr

/-- The write submitted by `storeK8SSecret`: a `Create` or an `Update` of
the given record. -/
inductive StoreAction where
  | create (sec : K8sSecret)
  | update (sec : K8sSecret)
  deriving DecidableEq, Repr

/-- Embeds `storeK8SSecret` (main.go): with no old record, build a fresh
record holding only the `tls.crt` and `tls.key` keys and submit a Create;
otherwise deep-copy the old record (value semantics in the model), assign
the two keys, and submit an Update. -/
def storeK8SSecret (secName : String) (oldSec : Option K8sSecret) (leCert : NewCert) :
    StoreAction :=
  match oldSec with
  | none =>
      let sec : K8sSecret :=
        { metaName := secName, metaRest := "",
          dataMap := assocSet (assocSet [] "tls.crt" leCert.cert) "tls.key" leCert.key }
      .create sec
  | some old =>
      let sec : K8sSecret :=
        { old with
          dataMap := assocSet (assocSet old.dataMap "tls.crt" leCert.cert) "tls.key" leCert.key }
      .update sec

/-- A model of `encoding/pem.Decode` restricted to inputs that contain no
PEM block (no line of the form `-----BEGIN ...-----`), such as the bytes of
`"not pem"`: on those inputs `pem.Decode` returns a nil block.  Used to
evaluate `fetchK8SSecret` at such inputs. -/
def noPemDecode : String → Option PemBlock :=
  fun _ => none

/-- A model of `x509.ParseCertificates` used where the call is unreachable
or fails; it rejects every input. -/
def rejectAllCertificates : String → Except String (List X509Cert) :=
  fun _ => .error "x509: malformed certificate"

/-- A concrete existing secret record whose `tls.crt` bytes contain no PEM
block. -/
def secretWithGarbageCrt : K8sSecret :=
  { metaName := "tls-secret", metaRest := "labels",
    dataMap := [("tls.crt", "not pem"), ("other", "keepme")] }

/-- A concrete existing secret record with data but no `tls.crt` key. -/
def secretWithoutCrt : K8sSecret :=
  { metaName := "tls-secret", metaRest := "labels",
    dataMap := [("password", "hunter2")] }

/-! ## Claims C1, C2, C3: the secret store adapter -/

/-- C1: the claim says a fetch of an existing secret whose `tls.crt` bytes
do not parse — including bytes containing no PEM block at all — yields a
snapshot with a nil leaf and never panics.  The code instead dereferences
the nil block returned by `pem.Decode` whenever the bytes contain no PEM
block, which is a panic: this theorem evaluates the embedded code on any
such input and shows the panic outcome.  (When a PEM block is present and
only `x509.ParseCertificates` fails, the code does return the nil-leaf
snapshot, as the branch after the dereference shows.) -/
theorem fetchK8SSecret_panics_on_block_free_crt
    (pemDecode : String → Option PemBlock)
    (parseCertificates : String → Except String (List X509Cert))
    (sec : K8sSecret) (b : String)
    (hcrt : assocFind sec.dataMap "tls.crt" = some b)
    (hpem : pemDecode b = none) :
    fetchK8SSecret pemDecode parseCertificates (.found sec) = .panicked := by
  simp [fetchK8SSecret, hcrt, hpem]

/-- Witness for C1: a concrete record whose `tls.crt` bytes are
`"not pem"`, which contains no PEM block, makes the fetch panic. -/
theorem fetchK8SSecret_panics_witness :
    assocFind secretWithGarbageCrt.dataMap "tls.crt" = some "not pem" ∧
    noPemDecode "not pem" = none ∧
    fetchK8SSecret noPemDecode rejectAllCertificates (.found secretWithGarbageCrt) =
      .panicked :=
  ⟨by decide, rfl,
    fetchK8SSecret_panics_on_block_free_crt noPemDecode rejectAllCertificates
      secretWithGarbageCrt "not pem" (by decide) rfl⟩

/-- C2 counterexample: an existing record with data but no `tls.crt` key
makes `fetchK8SSecret` return the nil snapshot (`ok none`), not a non-nil
snapshot with a nil leaf, and this is exactly the value returned for an
absent record — the two cases are not distinguishable. -/
theorem fetchK8SSecret_missing_crt_counterexample :
    fetchK8SSecret noPemDecode rejectAllCertificates (.found secretWithoutCrt) =
      .ok none ∧
    FetchOutcome.ok none ≠
      FetchOutcome.ok (some { cert := none, secret := secretWithoutCrt }) ∧
    fetchK8SSecret noPemDecode rejectAllCertificates .notFound = .ok none := by
  refine ⟨by decide, by decide, by decide⟩

/-- C2 (amended): for every fetch of an existing secret record that has no
`tls.crt` key in its data, `fetchK8SSecret` returns the nil snapshot, the
same value it returns for an absent record. -/
theorem fetchK8SSecret_missing_crt_amended
    (pemDecode : String → Option PemBlock)
    (parseCertificates : String → Except String (List X509Cert))
    (sec : K8sSecret)
    (h : assocFind sec.dataMap "tls.crt" = none) :
    fetchK8SSecret pemDecode parseCertificates (.found sec) = .ok none ∧
    fetchK8SSecret pemDecode parseCertificates .notFound = .ok none := by
  constructor
  · simp [fetchK8SSecret, h]
  · rfl

/-- Witness for the amended C2 at a concrete record. -/
theorem fetchK8SSecret_missing_crt_amended_witness :
    assocFind secretWithoutCrt.dataMap "tls.crt" = none ∧
    fetchK8SSecret noPemDecode rejectAllCertificates (.found secretWithoutCrt) =
      .ok none ∧
    fetchK8SSecret noPemDecode rejectAllCertificates .notFound = .ok none :=
  ⟨by decide,
    (fetchK8SSecret_missing_crt_amended noPemDecode rejectAllCertificates
      secretWithoutCrt (by decide)).1,
    (fetchK8SSecret_missing_crt_amended noPemDecode rejectAllCertificates
      secretWithoutCrt (by decide)).2⟩

/-- C3: with a non-nil old record, the record submitted for update keeps
all metadata and every data key other than `tls.crt` and `tls.key`
bit-identically, while those two keys now hold the new artifact's chain and
key; with a nil old record, the created record's data holds exactly the
`tls.crt` and `tls.key` keys. -/
theorem storeK8SSecret_frame :
    (∀ (secName : String) (old : K8sSecret) (nc : NewCert) (sec : K8sSecret),
      storeK8SSecret secName (some old) nc = .update sec →
      sec.metaName = old.metaName ∧ sec.metaRest = old.metaRest ∧
      assocFind sec.dataMap "tls.crt" = some nc.cert ∧
      assocFind sec.dataMap "tls.key" = some nc.key ∧
      ∀ k, k ≠ "tls.crt" → k ≠ "tls.key" →
        assocFind sec.dataMap k = assocFind old.dataMap k) ∧
    (∀ (secName : String) (nc : NewCert) (sec : K8sSecret),
      storeK8SSecret secName none nc = .create sec →
      ∀ k, assocFind sec.dataMap k =
        if k = "tls.crt" then some nc.cert
        else if k = "tls.key" then some nc.key
        else none) := by
  constructor
  · intro secName old nc sec h
    have hsec : sec =
        { old with
          dataMap :=
            assocSet (assocSet old.dataMap "tls.crt" nc.cert) "tls.key" nc.key } := by
      simpa [storeK8SSecret] using h.symm
    subst hsec
    refine ⟨rfl, rfl, ?_, ?_, ?_⟩
    · rw [assocFind_assocSet_of_ne _ _ _ _ (by decide)]
      exact assocFind_assocSet_self _ _ _
    · exact assocFind_assocSet_self _ _ _
    · intro k hk1 hk2
      rw [assocFind_assocSet_of_ne _ _ _ _ hk2, assocFind_assocSet_of_ne _ _ _ _ hk1]
  · intro secName nc sec h
    have hsec : sec =
        { metaName := secName, metaRest := "",
          dataMap := assocSet (assocSet [] "tls.crt" nc.cert) "tls.key" nc.key } := by
      simpa [storeK8SSecret] using h.symm
    subst hsec
    intro k
    by_cases h1 : k = "tls.crt"
    · subst h1
      rw [assocFind_assocSet_of_ne _ _ _ _ (by decide)]
      simp [assocFind_assocSet_self]
    · by_cases h2 : k = "tls.key"
      · subst h2
        simp [assocFind_assocSet_self, h1]
      · rw [assocFind_assocSet_of_ne _ _ _ _ h2, assocFind_assocSet_of_ne _ _ _ _ h1]
        simp [assocFind, h1, h2]

/-- Witness for C3 at a concrete old record carrying an unrelated key. -/
theorem storeK8SSecret_frame_witness :
    storeK8SSecret "tls-secret" (some secretWithGarbageCrt)
        { cert := "NEWCHAIN", key := "NEWKEY" } =
      .update
        { metaName := "tls-secret", metaRest := "labels",
          dataMap := [("tls.crt", "NEWCHAIN"), ("other", "keepme"), ("tls.key", "NEWKEY")] } ∧
    ("other" ≠ "tls.crt" ∧ "other" ≠ "tls.key") ∧
    assocFind [("tls.crt", "NEWCHAIN"), ("other", "keepme"), ("tls.key", "NEWKEY")]
        "other" = assocFind secretWithGarbageCrt.dataMap "other" :=
  ⟨by decide, ⟨by decide, by decide⟩,
    ((storeK8SSecret_frame.1 "tls-secret" secretWithGarbageCrt
        { cert := "NEWCHAIN", key := "NEWKEY" }
        { metaName := "tls-secret", metaRest := "labels",
          dataMap :=
            [("tls.crt", "NEWCHAIN"), ("other", "keepme"), ("tls.key", "NEWKEY")] }
        (by decide)).2.2.2.2 "other" (by decide) (by decide))⟩

/-! ## Claim C4: CreateCert domain handling and CSR construction (le.go) -/

/-- A secret config (config.go `secretConf`): namespace, name, domain list,
and the key-algorithm switch. -/
structure SecretConf where
  ns : String
  name : String
  domains : List String
  useRSA : Bool
  deriving DecidableEq, Repr

/-- Embeds `uniqueDomains` (le.go): drop every duplicate after the first
occurrence.  The Go code tracks seen-ness in a map `ds` whose key set is
always exactly the set of elements of `newDoms`, so the membership test is
taken on the accumulator directly. -/
def uniqueDomains (doms : List String) : List String :=
  doms.foldl (fun newDoms d => if d ∈ newDoms then newDoms else newDoms ++ [d]) []

/-- Modelled from the claim's words: deduplication by first occurrence with
order preserved — keep each element and delete its later duplicates. -/
def dedupFirstOccurrence : List String → List String
  | [] => []
  | d :: rest => d :: dedupFirstOccurrence (rest.filter (fun x => decide (x ≠ d)))
termination_by l => l.length
decreasing_by
  simp only [List.length_cons]
  exact Nat.lt_succ_of_le (List.length_filter_le _ _)

theorem uniqueDomains_foldl (l acc : List String) :
    l.foldl (fun newDoms d => if d ∈ newDoms then newDoms else newDoms ++ [d]) acc =
      acc ++ dedupFirstOccurrence (l.filter (fun x => decide (x ∉ acc))) := by
  induction l generalizing acc with
  | nil => simp [dedupFirstOccurrence]
  | cons d rest ih =>
      by_cases hmem : d ∈ acc
      · have hfilter :
            (d :: rest).filter (fun x => decide (x ∉ acc)) =
              rest.filter (fun x => decide (x ∉ acc)) := by
          simp [List.filter, hmem]
        simp only [List.foldl_cons, if_pos hmem, hfilter]
        exact ih acc
      · have hfilter :
            (d :: rest).filter (fun x => decide (x ∉ acc)) =
              d :: rest.filter (fun x => decide (x ∉ acc)) := by
          simp [List.filter, hmem]
        have hdedup :
            dedupFirstOccurrence ((d :: rest).filter (fun x => decide (x ∉ acc))) =
              d :: dedupFirstOccurrence
                ((rest.filter (fun x => decide (x ∉ acc))).filter
                  (fun x => decide (x ≠ d))) := by
          rw [hfilter, dedupFirstOccurrence]
        have hcomb :
            rest.filter (fun x => decide (x ∉ acc ++ [d])) =
              (rest.filter (fun x => decide (x ∉ acc))).filter
                (fun x => decide (x ≠ d)) := by
          rw [List.filter_filter]
          refine List.filter_congr ?_
          intro x _
          by_cases hx1 : x ∈ acc
          · simp [hx1]
          · by_cases hx2 : x = d
            · simp [hx2]
            · simp [hx1, hx2]
        simp only [List.foldl_cons, if_neg hmem, hdedup]
        rw [ih (acc ++ [d]), hcomb, List.append_assoc, List.singleton_append]

/-- The `uniqueDomains` of le.go is exactly first-occurrence deduplication
with order preserved. -/
theorem uniqueDomains_eq_dedupFirstOccurrence (doms : List String) :
    uniqueDomains doms = dedupFirstOccurrence doms := by
  have h := uniqueDomains_foldl doms []
  simpa [uniqueDomains] using h

/-- A CSR as `createCSR` (le.go) builds it: the subject common name and the
DNS SAN list. -/
structure CsrModel where
  commonName : String
  dnsNames : List String
  deriving DecidableEq, Repr

/-- Embeds `createCSR` (le.go): subject CN = `domains[0]`, DNS names = the
full list passed in.  (Go indexes `domains[0]`; every call site is guarded
by CreateCert's emptiness check, which the theorems carry as a
hypothesis.) -/
def createCSR (domains : List String) : CsrModel :=
  { commonName := domains.headD "", dnsNames := domains }

/-- Embeds the domain list over which `CreateCert` (le.go) spawns
authorization goroutines: `uniqueDomains(sconf.Domains)` minus the domains
in `alreadyAuthDomains` (the `continue` in the spawn loop). -/
def createCertAuthDomains (domains : List String) (alreadyAuthDomains : List String) :
    List String :=
  (uniqueDomains domains).filter (fun d => decide (d ∉ alreadyAuthDomains))

/-- Embeds the visible order-driver decisions of `CreateCert` (le.go): the
empty-domain guard, then the list of domains driven through authorization
and the CSR the finalize step submits (built from the configured, not
deduplicated, list `sconf.Domains`). -/
def createCertPlan (sconf : SecretConf) (alreadyAuthDomains : List String) :
    Except String (List String × CsrModel) :=
  if sconf.domains.isEmpty then
    .error "cannot request a certificate with no names"
  else
    .ok (createCertAuthDomains sconf.domains alreadyAuthDomains,
      createCSR sconf.domains)

/-- C4: for a config with a non-empty domain list and nothing authorized
yet this tick, CreateCert authorizes over the first-occurrence
deduplication of the configured domains (order preserved) while the CSR
keeps CN = the first configured domain and SANs = the full configured list
with duplicates. -/
theorem createCert_dedup_and_csr (sconf : SecretConf) (first : String)
    (rest : List String) (hd : sconf.domains = first :: rest) :
    createCertPlan sconf [] =
      .ok (dedupFirstOccurrence sconf.domains,
        { commonName := first, dnsNames := sconf.domains }) := by
  have hfilter :
      (uniqueDomains sconf.domains).filter (fun d => decide (d ∉ ([] : List String))) =
        uniqueDomains sconf.domains := by
    apply List.filter_eq_self.2
    intro a _
    simp
  simp [createCertPlan, createCertAuthDomains, createCSR, hd, hfilter,
    uniqueDomains_eq_dedupFirstOccurrence]

/-- Witness for C4 at the spec's example: domains `["a","a","b"]` give
authorizations for `["a","b"]`, CSR SANs `["a","a","b"]`, CN `"a"`. -/
theorem createCert_dedup_and_csr_witness :
    createCertPlan ⟨"default", "test", ["a", "a", "b"], false⟩ [] =
      .ok (dedupFirstOccurrence ["a", "a", "b"],
        { commonName := "a", dnsNames := ["a", "a", "b"] }) ∧
    dedupFirstOccurrence ["a", "a", "b"] = ["a", "b"] :=
  ⟨createCert_dedup_and_csr _ "a" ["a", "b"] rfl, by
    rw [← uniqueDomains_eq_dedupFirstOccurrence]
    decide⟩

/-! ## Claim C5: the HTTP-01 challenge responder (responder.go) -/

/-- A stored challenge response (responder.go `responseInfo`). -/
structure ResponseInfo where
  body : String
  domain : String
  deriving DecidableEq, Repr

/-- The responder state (responder.go `leResponder`): the precomputed
base64url JWK SHA-256 thumbprint of the account key, and the token-to-body
map guarded by the mutex. -/
structure ResponderState where
  accountKeyThumbprint : String
  bodies : List (String × ResponseInfo)
  deriving DecidableEq, Repr

/-- The HTTP request fields the responder reads: Go's `http.Request` also
carries a method, which `ServeHTTP` never consults. -/
structure HttpRequest where
  method : String
  path : String
  userAgent : String
  deriving DecidableEq, Repr

/-- The response the responder writes: a 200 with a body, or the 404 from
`http.Error(w, "Not Found", 404)`. -/
inductive HttpResponse where
  | okBody (body : String)
  | notFound
  deriving DecidableEq, Repr

/-- The well-known challenge path (responder.go `acmePath`). -/
def acmePath : String := "/.well-known/acme-challenge/"

/-- Embeds `ServeHTTP` (responder.go): the Google health-check special case
first (path `/` with User-Agent `GoogleHC/1.0`; the method is not
consulted), then the path-prefix check, then the token lookup.  Path
slicing (`strings.HasPrefix` and `r.URL.Path[len(acmePath):]`) is taken on
the character lists of the strings. -/
def serveHTTP (st : ResponderState) (r : HttpRequest) : HttpResponse :=
  if r.path = "/" ∧ r.userAgent = "GoogleHC/1.0" then
    .okBody "OK"
  else if acmePath.data.isPrefixOf r.path.data then
    let token : String := ⟨r.path.data.drop acmePath.data.length⟩
    match assocFind st.bodies token with
    | some info => .okBody info.body
    | none => .notFound
  else
    .notFound

/-- Embeds `AddAuthorization` (responder.go): store
`token + "." + thumbprint` under the token, overwriting any prior
entry. -/
def addAuthorization (st : ResponderState) (domain token : String) : ResponderState :=
  { st with
    bodies := assocSet st.bodies token
      { body := token ++ "." ++ st.accountKeyThumbprint, domain := domain } }

/-- Embeds `Reset` (responder.go): replace the body map with an empty
one. -/
def resetResponder (st : ResponderState) : ResponderState :=
  { st with bodies := [] }

theorem acmePath_append_ne_root (tok : String) : ¬ (acmePath ++ tok = "/") := by
  intro h
  have hlen : (acmePath ++ tok).length = ("/" : String).length :=
    congrArg String.length h
  rw [String.length_append] at hlen
  have h1 : acmePath.length = 28 := by decide
  have h2 : ("/" : String).length = 1 := by decide
  omega

theorem acmePath_data_append (tok : String) :
    (acmePath ++ tok).data = acmePath.data ++ tok.data := by
  rfl

theorem acmePath_token_roundtrip (tok : String) :
    (acmePath ++ tok).data.drop acmePath.data.length = tok.data := by
  rw [acmePath_data_append]
  exact List.drop_left _ _

/-- C5 counterexample: a POST (not a GET) to `/` with User-Agent
`GoogleHC/1.0` is answered 200 `"OK"`, while the claim allows only `GET /`
with that header to escape the 404. -/
theorem serveHTTP_health_check_ignores_method_counterexample :
    serveHTTP { accountKeyThumbprint := "THUMB", bodies := [] }
        { method := "POST", path := "/", userAgent := "GoogleHC/1.0" } =
      .okBody "OK" ∧
    HttpResponse.okBody "OK" ≠ HttpResponse.notFound := by
  refine ⟨by decide, by decide⟩

/-- C5 (amended): for every token added and not yet cleared, a request for
`/.well-known/acme-challenge/<token>` is answered 200 with
`token + "." + thumbprint`; after `Reset` the same request is answered
404; any request whose path is not under the challenge path is answered
404, except that a request with path `/` and User-Agent exactly
`GoogleHC/1.0` — with any method, the method is not examined — is
answered 200 `"OK"`. -/
theorem serveHTTP_responder_behaviour :
    (∀ (st : ResponderState) (dom tok m ua : String),
      serveHTTP (addAuthorization st dom tok)
          { method := m, path := acmePath ++ tok, userAgent := ua } =
        .okBody (tok ++ "." ++ st.accountKeyThumbprint)) ∧
    (∀ (st : ResponderState) (dom tok m ua : String),
      serveHTTP (resetResponder (addAuthorization st dom tok))
          { method := m, path := acmePath ++ tok, userAgent := ua } =
        .notFound) ∧
    (∀ (st : ResponderState) (r : HttpRequest),
      ¬ acmePath.data.isPrefixOf r.path.data = true →
      serveHTTP st r =
        if r.path = "/" ∧ r.userAgent = "GoogleHC/1.0" then .okBody "OK"
        else .notFound) := by
  refine ⟨?_, ?_, ?_⟩
  · intro st dom tok m ua
    have hroot := acmePath_append_ne_root tok
    have hpre : acmePath.data.isPrefixOf (acmePath ++ tok).data = true := by
      rw [acmePath_data_append]
      exact List.isPrefixOf_iff_prefix.2 (List.prefix_append _ _)
    have htok : (⟨(acmePath ++ tok).data.drop acmePath.data.length⟩ : String) = tok := by
      rw [acmePath_token_roundtrip]
    simp only [serveHTTP, addAuthorization]
    rw [if_neg (fun hc => hroot hc.1), if_pos hpre, htok, assocFind_assocSet_self]
  · intro st dom tok m ua
    have hroot := acmePath_append_ne_root tok
    have hpre : acmePath.data.isPrefixOf (acmePath ++ tok).data = true := by
      rw [acmePath_data_append]
      exact List.isPrefixOf_iff_prefix.2 (List.prefix_append _ _)
    simp only [serveHTTP, resetResponder, addAuthorization]
    rw [if_neg (fun hc => hroot hc.1), if_pos hpre]
    simp [assocFind]
  · intro st r hnpre
    simp only [serveHTTP]
    by_cases hc : r.path = "/" ∧ r.userAgent = "GoogleHC/1.0"
    · rw [if_pos hc, if_pos hc]
    · rw [if_neg hc, if_neg hnpre, if_neg hc]

/-- Witness for the amended C5: the spec's scenario with token `ABC`. -/
theorem serveHTTP_responder_behaviour_witness :
    serveHTTP
        (addAuthorization { accountKeyThumbprint := "THUMB", bodies := [] }
          "example.com" "ABC")
        { method := "GET", path := acmePath ++ "ABC", userAgent := "acme-client" } =
      .okBody ("ABC" ++ "." ++ "THUMB") ∧
    serveHTTP
        (resetResponder
          (addAuthorization { accountKeyThumbprint := "THUMB", bodies := [] }
            "example.com" "ABC"))
        { method := "GET", path := acmePath ++ "ABC", userAgent := "acme-client" } =
      .notFound :=
  ⟨serveHTTP_responder_behaviour.1 { accountKeyThumbprint := "THUMB", bodies := [] }
      "example.com" "ABC" "GET" "acme-client",
    serveHTTP_responder_behaviour.2.1 { accountKeyThumbprint := "THUMB", bodies := [] }
      "example.com" "ABC" "GET" "acme-client"⟩

/-! ## Claim C6: the account manager memo (le.go `leClientMaker.Make`) -/

/-- The memo key (le.go `accountInfo`). -/
structure AccountInfo where
  directoryURL : String
  email : String
  deriving DecidableEq, Repr

/-- An ACME account record, restricted to the fields `Make` and
`ensureTermsOfUse` read. -/
structure AcmeAccount where
  uri : String
  currentTerms : String
  agreedTerms : String
  deriving DecidableEq, Repr

/-- The memoized client (le.go `leClient`): the discovered directory
payload and the registration URI.  The responder and HTTP client fields
are process-wide constants and are omitted. -/
structure LeClientModel where
  dir : String
  registrationURI : String
  deriving DecidableEq, Repr

/-- Oracle for the ACME network calls `Make` performs: directory
discovery, account registration (with `mailto:` contact and automatic TOS
acceptance), account refresh, and registration update. -/
structure MakeEnv where
  discover : String → Except String String
  register : String → String → Except String AcmeAccount
  getReg : String → Except String AcmeAccount
  updateReg : AcmeAccount → Except String Unit

/-- Models `strings.TrimRight(s, "/")`: drop every trailing slash. -/
def trimTrailingSlashes (s : String) : String :=
  ⟨(s.data.reverse.dropWhile (fun c => decide (c = '/'))).reverse⟩

/-- Embeds `ensureTermsOfUse` (le.go): refresh the account, and when the
current terms differ from the agreed terms, post an update accepting
them. -/
def ensureTermsOfUse (env : MakeEnv) (lc : LeClientModel) : Except String Unit :=
  match env.getReg lc.registrationURI with
  | .error e =>
      .error ("unable to refresh account info while determining most recent Terms of Service: " ++ e)
  | .ok acc =>
      if acc.currentTerms ≠ acc.agreedTerms then
        match env.updateReg { acc with agreedTerms := acc.currentTerms } with
        | .error e => .error ("unable to update registration for new agreement terms: " ++ e)
        | .ok _ => .ok ()
      else .ok ()

/-- Embeds `leClientMaker.Make` (le.go).  The memo is the maker's only
mutable state and is threaded explicitly.  On a memo hit Go returns the
client together with `ensureTermsOfUse`'s error; the model keeps the
error alone in that case, which is what every caller consults.  Every
branch other than the final registration success leaves the memo
untouched. -/
def makeClient (env : MakeEnv) (directoryURL email : String)
    (st : List (AccountInfo × LeClientModel)) :
    Except String LeClientModel × List (AccountInfo × LeClientModel) :=
  if directoryURL.length = 0 then
    (.error "directoryURL of Let's Encrypt API may not be blank", st)
  else
    let url := trimTrailingSlashes directoryURL
    let info : AccountInfo := { directoryURL := url, email := email }
    match assocFind st info with
    | some lc =>
        match ensureTermsOfUse env lc with
        | .ok _ => (.ok lc, st)
        | .error e => (.error e, st)
    | none =>
        match env.discover url with
        | .error e =>
            (.error ("unable to discover ACME endpoints at directory URL " ++ url ++ ": " ++ e),
              st)
        | .ok dir =>
            match env.register url email with
            | .error e => (.error ("unable to create new registration: " ++ e), st)
            | .ok acc =>
                let lc : LeClientModel := { dir := dir, registrationURI := acc.uri }
                (.ok lc, assocSet st info lc)

/-- A sequence of further `Make` calls, used to state that memoization
survives arbitrary intervening calls. -/
def runMakes (st : List (AccountInfo × LeClientModel))
    (calls : List (MakeEnv × String × String)) : List (AccountInfo × LeClientModel) :=
  calls.foldl (fun s call => (makeClient call.1 call.2.1 call.2.2 s).2) st

theorem makeClient_state_cases (env : MakeEnv) (u e : String)
    (st : List (AccountInfo × LeClientModel)) :
    (makeClient env u e st).2 = st ∨
    (∃ c, makeClient env u e st =
        (.ok c, assocSet st { directoryURL := trimTrailingSlashes u, email := e } c) ∧
      assocFind st { directoryURL := trimTrailingSlashes u, email := e } = none) := by
  unfold makeClient
  by_cases hu : u.length = 0
  · rw [if_pos hu]
    left
    rfl
  · rw [if_neg hu]
    simp only []
    cases hfind : assocFind st { directoryURL := trimTrailingSlashes u, email := e } with
    | some lc =>
        cases hens : ensureTermsOfUse env lc with
        | ok v => left; simp [hfind, hens]
        | error e2 => left; simp [hfind, hens]
    | none =>
        cases hdisc : env.discover (trimTrailingSlashes u) with
        | error e2 => left; simp [hfind, hdisc]
        | ok dir =>
            cases hreg : env.register (trimTrailingSlashes u) e with
            | error e2 => left; simp [hfind, hdisc, hreg]
            | ok acc =>
                right
                refine ⟨{ dir := dir, registrationURI := acc.uri }, ?_, rfl⟩
                simp [hdisc, hreg]

theorem makeClient_ok_lookup (env : MakeEnv) (u e : String)
    (st st2 : List (AccountInfo × LeClientModel)) (c : LeClientModel)
    (h : makeClient env u e st = (.ok c, st2)) :
    assocFind st2 { directoryURL := trimTrailingSlashes u, email := e } = some c := by
  unfold makeClient at h
  by_cases hu : u.length = 0
  · rw [if_pos hu] at h
    exact absurd (congrArg Prod.fst h) (by simp)
  · rw [if_neg hu] at h
    simp only [] at h
    cases hfind : assocFind st { directoryURL := trimTrailingSlashes u, email := e } with
    | some lc =>
        rw [hfind] at h
        simp only [] at h
        cases hens : ensureTermsOfUse env lc with
        | ok v =>
            rw [hens] at h
            simp only [Prod.mk.injEq, Except.ok.injEq] at h
            obtain ⟨h1, h2⟩ := h
            subst h2
            subst h1
            simpa using hfind
        | error e2 =>
            rw [hens] at h
            exact absurd (congrArg Prod.fst h) (by simp)
    | none =>
        rw [hfind] at h
        simp only [] at h
        cases hdisc : env.discover (trimTrailingSlashes u) with
        | error e2 =>
            rw [hdisc] at h
            exact absurd (congrArg Prod.fst h) (by simp)
        | ok dir =>
            rw [hdisc] at h
            simp only [] at h
            cases hreg : env.register (trimTrailingSlashes u) e with
            | error e2 =>
                rw [hreg] at h
                exact absurd (congrArg Prod.fst h) (by simp)
            | ok acc =>
                rw [hreg] at h
                simp only [Prod.mk.injEq, Except.ok.injEq] at h
                obtain ⟨h1, h2⟩ := h
                subst h1
                subst h2
                exact assocFind_assocSet_self _ _ _

theorem makeClient_preserves_entry (env : MakeEnv) (u e : String)
    (st : List (AccountInfo × LeClientModel)) (i : AccountInfo) (c : LeClientModel)
    (h : assocFind st i = some c) :
    assocFind (makeClient env u e st).2 i = some c := by
  rcases makeClient_state_cases env u e st with hst | ⟨c2, heq, hnone⟩
  · rw [hst]
    exact h
  · rw [heq]
    by_cases hi : i = { directoryURL := trimTrailingSlashes u, email := e }
    · rw [hi] at h
      rw [h] at hnone
      exact absurd hnone (by simp)
    · simpa [assocFind_assocSet_of_ne _ _ _ _ hi] using h

theorem runMakes_preserves_entry (calls : List (MakeEnv × String × String))
    (st : List (AccountInfo × LeClientModel)) (i : AccountInfo) (c : LeClientModel)
    (h : assocFind st i = some c) :
    assocFind (runMakes st calls) i = some c := by
  induction calls generalizing st with
  | nil => exact h
  | cons call rest ih =>
      exact ih _ (makeClient_preserves_entry call.1 call.2.1 call.2.2 st i c h)

theorem makeClient_ok_of_lookup (env : MakeEnv) (u e : String)
    (st st2 : List (AccountInfo × LeClientModel)) (c c2 : LeClientModel)
    (hfind : assocFind st { directoryURL := trimTrailingSlashes u, email := e } = some c)
    (h : makeClient env u e st = (.ok c2, st2)) :
    c2 = c := by
  unfold makeClient at h
  by_cases hu : u.length = 0
  · rw [if_pos hu] at h
    exact absurd (congrArg Prod.fst h) (by simp)
  · rw [if_neg hu] at h
    simp only [] at h
    rw [hfind] at h
    simp only [] at h
    cases hens : ensureTermsOfUse env c with
    | ok v =>
        rw [hens] at h
        simp only [Prod.mk.injEq, Except.ok.injEq] at h
        exact h.1.symm
    | error e2 =>
        rw [hens] at h
        exact absurd (congrArg Prod.fst h) (by simp)

/-- C6: `Make` rejects an empty directory URL with an error and leaves
the memo unchanged; every error return leaves the memo unchanged (it is
populated only on full success, and discovery/registration failures
propagate); and any two successful calls with the same email whose
directory URLs agree after trimming trailing slashes — with arbitrary
further `Make` calls in between — return the same memoized client. -/
theorem makeClient_account_memo :
    (∀ (env : MakeEnv) (e : String) (st : List (AccountInfo × LeClientModel)),
      makeClient env "" e st =
        (.error "directoryURL of Let's Encrypt API may not be blank", st)) ∧
    (∀ (env : MakeEnv) (u e : String) (st st2 : List (AccountInfo × LeClientModel))
      (msg : String), makeClient env u e st = (.error msg, st2) → st2 = st) ∧
    (∀ (env1 env2 : MakeEnv) (u1 u2 e : String)
      (st st1 st3 : List (AccountInfo × LeClientModel))
      (calls : List (MakeEnv × String × String)) (c1 c2 : LeClientModel),
      trimTrailingSlashes u1 = trimTrailingSlashes u2 →
      makeClient env1 u1 e st = (.ok c1, st1) →
      makeClient env2 u2 e (runMakes st1 calls) = (.ok c2, st3) →
      c2 = c1) := by
  refine ⟨?_, ?_, ?_⟩
  · intro env e st
    rfl
  · intro env u e st st2 msg h
    rcases makeClient_state_cases env u e st with hst | ⟨c, heq, _⟩
    · rw [h] at hst
      exact hst
    · rw [h] at heq
      exact absurd (congrArg Prod.fst heq) (by simp)
  · intro env1 env2 u1 u2 e st st1 st3 calls c1 c2 htrim h1 h2
    have hl1 := makeClient_ok_lookup env1 u1 e st st1 c1 h1
    rw [htrim] at hl1
    have hl2 := runMakes_preserves_entry calls st1 _ c1 hl1
    exact makeClient_ok_of_lookup env2 u2 e (runMakes st1 calls) st3 c1 c2 hl2 h2

/-- Oracle for the C6 witness: discovery and registration always
succeed, and the registered account already agrees to the current
terms. -/
def memoEnv : MakeEnv :=
  { discover := fun _ => .ok "directory-payload",
    register := fun _ _ => .ok { uri := "reg-uri", currentTerms := "T", agreedTerms := "T" },
    getReg := fun _ => .ok { uri := "reg-uri", currentTerms := "T", agreedTerms := "T" },
    updateReg := fun _ => .ok () }

/-- The memo after the first successful C6-witness call. -/
def memoState1 : List (AccountInfo × LeClientModel) :=
  [({ directoryURL := "https://api.example", email := "a@b" },
    { dir := "directory-payload", registrationURI := "reg-uri" })]

/-- Witness for C6: two successful calls whose URLs differ only in
trailing slashes return the same client. -/
theorem makeClient_account_memo_witness :
    trimTrailingSlashes "https://api.example//" = trimTrailingSlashes "https://api.example" ∧
    makeClient memoEnv "https://api.example//" "a@b" [] =
      (.ok { dir := "directory-payload", registrationURI := "reg-uri" }, memoState1) ∧
    makeClient memoEnv "https://api.example" "a@b" (runMakes memoState1 []) =
      (.ok { dir := "directory-payload", registrationURI := "reg-uri" }, memoState1) ∧
    ({ dir := "directory-payload", registrationURI := "reg-uri" } : LeClientModel) =
      { dir := "directory-payload", registrationURI := "reg-uri" } :=
  ⟨rfl, rfl, rfl,
    makeClient_account_memo.2.2 memoEnv memoEnv "https://api.example//" "https://api.example"
      "a@b" [] memoState1 memoState1 [] _ _ rfl rfl rfl⟩

/-! ## Claim C7: the config loader (config.go) -/

/-- The configuration (config.go `allConf`).  Durations are in
nanoseconds, Go's `time.Duration` unit. -/
structure AllConf where
  email : String
  useProd : Option Bool
  allowRemoteDebug : Bool
  secrets : List SecretConf
  tlsDir : String
  configCheckInterval : Int
  startRenewDur : Int
  deriving DecidableEq, Repr

/-- Embeds the per-domain loop of `validateConf` (config.go): each domain
is whitespace-trimmed in place and must be non-empty afterwards. -/
def validateDomains (j : Nat) : List String → Except String (List String)
  | [] => .ok []
  | d :: rest =>
      let t := d.trim
      if t = "" then
        .error ("empty string in domains of secret config at index " ++ toString j ++
          " in \"secrets\"")
      else
        match validateDomains (j + 1) rest with
        | .error e => .error e
        | .ok rest2 => .ok (t :: rest2)

/-- Embeds the per-secret loop of `validateConf` (config.go): name and
namespace must be non-empty, full names must be unique, and the domain
list must be non-empty and pass `validateDomains`. -/
def validateSecrets (seen : List (String × String)) (i : Nat) :
    List SecretConf → Except String (List SecretConf)
  | [] => .ok []
  | sc :: rest =>
      if sc.name = "" then
        .error ("no Name given for secret config at index " ++ toString i ++
          " in \"secrets\"")
      else if sc.ns = "" then
        .error ("no Namespace given for secret config at index " ++ toString i ++
          " in \"secrets\"")
      else if seen.contains (sc.ns, sc.name) then
        .error ("duplicate config for secret " ++ sc.name)
      else if sc.domains.isEmpty then
        .error ("no domains given for secret " ++ sc.name)
      else
        match validateDomains 0 sc.domains with
        | .error e => .error e
        | .ok doms =>
            match validateSecrets ((sc.ns, sc.name) :: seen) (i + 1) rest with
            | .error e => .error e
            | .ok rest2 => .ok ({ sc with domains := doms } :: rest2)

/-- Embeds `validateConf` (config.go).  The two top-level error messages
are abbreviated (the Go originals interpolate the config path and carry
usage advice). -/
def validateConf (conf : AllConf) : Except String AllConf :=
  if conf.email = "" then
    .error "'email' must be set in the config file"
  else
    match conf.useProd with
    | none => .error "'use_prod' must be set to false or true"
    | some _ =>
        match validateSecrets [] 0 conf.secrets with
        | .error e => .error e
        | .ok secs => .ok { conf with secrets := secs }

/-- Embeds the duration defaulting of `unmarshalConf` (config.go): a zero
`config_check_interval` becomes 30 s and a zero `start_renew_duration`
becomes 504 h, in nanoseconds. -/
def applyDurationDefaults (c : AllConf) : AllConf :=
  let c1 :=
    if c.configCheckInterval = 0 then { c with configCheckInterval := 30 * 1000000000 }
    else c
  if c1.startRenewDur = 0 then { c1 with startRenewDur := 504 * 3600 * 1000000000 }
  else c1

/-- Embeds `unmarshalConf` (config.go) over a JSON-decoding oracle `ju`
modelling `json.Unmarshal`. -/
def unmarshalConf (ju : List Nat → Except String AllConf) (b : List Nat) :
    Except String AllConf :=
  match ju b with
  | .error e => .error e
  | .ok c => .ok (applyDurationDefaults c)

/-- The loader state (config.go `confLoader`): the SHA-256 of the last
accepted bytes (abstracted to a value of the hash oracle) and the current
accepted snapshot. -/
structure LoadState where
  lastHash : Nat
  conf : Option AllConf
  deriving DecidableEq, Repr

/-- The error cases of `confLoader.load`: a read error, the `errSameHash`
sentinel, a JSON decoding error, or a validation error. -/
inductive LoadError where
  | ioErr (msg : String)
  | sameHash
  | parseErr (msg : String)
  | validateErr (msg : String)
  deriving DecidableEq, Repr

/-- Embeds `confLoader.load` (config.go): read the file, return the
sentinel when the hash matches the last accepted hash, then decode,
validate, and only then replace the snapshot and the hash.  `H` models
`sha256.Sum256`, `ju` models `json.Unmarshal`, and `readRes` is the
result of `os.ReadFile`. -/
def confLoaderLoad (H : List Nat → Nat) (ju : List Nat → Except String AllConf)
    (readRes : Except String (List Nat)) (st : LoadState) :
    Except LoadError Unit × LoadState :=
  match readRes with
  | .error e => (.error (.ioErr e), st)
  | .ok b =>
      let h := H b
      if h = st.lastHash then (.error .sameHash, st)
      else
        match unmarshalConf ju b with
        | .error e => (.error (.parseErr e), st)
        | .ok conf =>
            match validateConf conf with
            | .error e => (.error (.validateErr e), st)
            | .ok conf2 => (.ok (), { lastHash := h, conf := some conf2 })

/-- Embeds `confLoader.Get` (config.go): the currently accepted
snapshot. -/
def confLoaderGet (st : LoadState) : Option AllConf :=
  st.conf

/-- C7: loading bytes whose hash equals the last accepted hash returns
the same-hash sentinel and leaves the state untouched; and every failing
load — read error, same hash, decode error, or validation error — leaves
the accepted snapshot and hash unchanged, so `Get` still returns the
prior snapshot.  The state is replaced only by a fully successful
load. -/
theorem confLoader_load_retention :
    (∀ (H : List Nat → Nat) (ju : List Nat → Except String AllConf) (b : List Nat)
      (st : LoadState), H b = st.lastHash →
      confLoaderLoad H ju (.ok b) st = (.error .sameHash, st)) ∧
    (∀ (H : List Nat → Nat) (ju : List Nat → Except String AllConf)
      (readRes : Except String (List Nat)) (st : LoadState) (er : LoadError)
      (st2 : LoadState), confLoaderLoad H ju readRes st = (.error er, st2) →
      st2 = st ∧ confLoaderGet st2 = confLoaderGet st) := by
  constructor
  · intro H ju b st hh
    simp [confLoaderLoad, hh]
  · intro H ju readRes st er st2 h
    suffices hst : st2 = st by exact ⟨hst, by rw [hst]⟩
    cases readRes with
    | error e =>
        simp only [confLoaderLoad, Prod.mk.injEq] at h
        exact h.2.symm
    | ok b =>
        simp only [confLoaderLoad] at h
        by_cases hh : H b = st.lastHash
        · rw [if_pos hh] at h
          simp only [Prod.mk.injEq] at h
          exact h.2.symm
        · rw [if_neg hh] at h
          cases hum : unmarshalConf ju b with
          | error e =>
              rw [hum] at h
              simp only [Prod.mk.injEq] at h
              exact h.2.symm
          | ok conf =>
              rw [hum] at h
              simp only [] at h
              cases hval : validateConf conf with
              | error e =>
                  rw [hval] at h
                  simp only [Prod.mk.injEq] at h
                  exact h.2.symm
              | ok conf2 =>
                  rw [hval] at h
                  simp only [Prod.mk.injEq] at h
                  exact absurd h.1 (by simp)

/-- The sample accepted configuration used by the C7 witness. -/
def exampleConf : AllConf :=
  { email := "fake@example.com", useProd := some true, allowRemoteDebug := true,
    secrets := [⟨"default", "test", ["example.com"], false⟩], tlsDir := "",
    configCheckInterval := 180000000000, startRenewDur := 10800000000000 }

/-- Witness for C7: a load whose bytes hash to the last accepted hash
returns the sentinel and retains the snapshot. -/
theorem confLoader_load_retention_witness :
    (fun (_ : List Nat) => 7) [] = ({ lastHash := 7, conf := some exampleConf } : LoadState).lastHash ∧
    confLoaderLoad (fun _ => 7) (fun _ => .error "unused") (.ok [])
        { lastHash := 7, conf := some exampleConf } =
      (.error .sameHash, { lastHash := 7, conf := some exampleConf }) :=
  ⟨rfl,
    confLoader_load_retention.1 (fun _ => 7) (fun _ => .error "unused") []
      { lastHash := 7, conf := some exampleConf } rfl⟩

/-! ## Claim C8: responder ordering within a reconciliation tick

The tick (`run` in main.go) calls `lcm.responder.Reset()` once, then for
each secret that needs a refresh calls `workOn`, whose `CreateCert` spawns
one goroutine per driven domain and joins them all before returning.  Each
goroutine runs `authorizeDomain` (le.go), whose responder-relevant effects
are `AddAuthorization` for the challenge token followed by posting
`Accept`.  The observable event sequence of a tick is therefore `reset`
followed by, for each refreshed secret in order, an arbitrary interleaving
of that secret's per-domain event sequences. -/

/-- Responder-relevant events of a tick. -/
inductive TickEvent where
  | reset
  | add (token : String)
  | accept (token : String)
  deriving DecidableEq, Repr

/-- An ACME challenge, restricted to the fields the driver reads. -/
structure AcmeChallenge where
  ctype : String
  token : String
  deriving DecidableEq, Repr

/-- An ACME authorization object (le.go era: a challenge list plus
combinations of indices into it). -/
structure AcmeAuthorization where
  uri : String
  challenges : List AcmeChallenge
  combinations : List (List Nat)
  deriving DecidableEq, Repr

/-- Embeds the combination scan of `findChallenge` (le.go): the first
singleton combination whose challenge has type `http-01`.  Go indexes
`a.Challenges[comb[0]]` unchecked and would panic on an out-of-range
combination; the model treats that case as a non-match, which only
removes events and is sound for the ordering claims. -/
def findChallengeScan (challenges : List AcmeChallenge) :
    List (List Nat) → Except String AcmeChallenge
  | [] => .error "no challenge combination of just http"
  | comb :: rest =>
      match comb with
      | [i] =>
          match challenges.get? i with
          | some ch =>
              if ch.ctype = "http-01" then .ok ch else findChallengeScan challenges rest
          | none => findChallengeScan challenges rest
      | _ => findChallengeScan challenges rest

/-- Embeds `findChallenge` (le.go). -/
def findChallenge (a : AcmeAuthorization) : Except String AcmeChallenge :=
  findChallengeScan a.challenges a.combinations

/-- The responder events of one `authorizeDomain` call (le.go), with the
`Authorize` network call abstracted by the oracle `authz`: nothing when
`Authorize` or `findChallenge` fails, otherwise `AddAuthorization` of the
challenge token followed by the `Accept` post.  The subsequent
`GetAuthorization` polling touches no responder state. -/
def authorizeDomainEvents (authz : String → Except String AcmeAuthorization)
    (dom : String) : List TickEvent :=
  match authz dom with
  | .error _ => []
  | .ok a =>
      match findChallenge a with
      | .error _ => []
      | .ok ch => [.add ch.token, .accept ch.token]

/-- `Merge ls out` holds when `out` is an interleaving of the lists in
`ls`: at each step the head of one component is emitted, and exhausted
components are dropped.  This models the concurrent per-domain goroutines
of `CreateCert`, whose per-goroutine order is fixed but whose global
order is any interleaving. -/
inductive Merge {α : Type} : List (List α) → List α → Prop where
  | nil : Merge [] []
  | take (pre : List (List α)) (l : List α) (post : List (List α)) (a : α)
      (out : List α) :
      Merge (pre ++ l :: post) out → Merge (pre ++ (a :: l) :: post) (a :: out)
  | dropNil (pre post : List (List α)) (out : List α) :
      Merge (pre ++ post) out → Merge (pre ++ [] :: post) out

theorem merge_mem {α : Type} {ls : List (List α)} {out : List α}
    (h : Merge ls out) : ∀ x ∈ out, ∃ l, l ∈ ls ∧ x ∈ l := by
  induction h with
  | nil =>
      intro x hx
      cases hx
  | take pre l post a out hm ih =>
      intro x hx
      rcases List.mem_cons.1 hx with hxa | hxout
      · exact ⟨a :: l, List.mem_append_right _ (List.mem_cons_self _ _),
          by simp [hxa]⟩
      · rcases ih x hxout with ⟨l2, hl2, hxl2⟩
        rcases List.mem_append.1 hl2 with hpre | hrest
        · exact ⟨l2, List.mem_append_left _ hpre, hxl2⟩
        · rcases List.mem_cons.1 hrest with heq | hpost
          · subst heq
            exact ⟨a :: l2, List.mem_append_right _ (List.mem_cons_self _ _),
              List.mem_cons_of_mem _ hxl2⟩
          · exact ⟨l2, List.mem_append_right _ (List.mem_cons_of_mem _ hpost), hxl2⟩
  | dropNil pre post out hm ih =>
      intro x hx
      rcases ih x hx with ⟨l2, hl2, hxl2⟩
      rcases List.mem_append.1 hl2 with hpre | hpost
      · exact ⟨l2, List.mem_append_left _ hpre, hxl2⟩
      · exact ⟨l2, List.mem_append_right _ (List.mem_cons_of_mem _ hpost), hxl2⟩

/-- Every `accept` of a token in `l` is preceded, within `l`, by an `add`
of the same token — or the `add` was already emitted earlier
(`emitted`). -/
def acceptPrecededByAdd (emitted : List TickEvent) (l : List TickEvent) : Prop :=
  ∀ u tok v, l = u ++ TickEvent.accept tok :: v →
    TickEvent.add tok ∈ u ∨ TickEvent.add tok ∈ emitted

theorem acceptPrecededByAdd_weaken {em em2 : List TickEvent} {l : List TickEvent}
    (h : acceptPrecededByAdd em l) (hsub : ∀ x ∈ em, x ∈ em2) :
    acceptPrecededByAdd em2 l := by
  intro u tok v heq
  rcases h u tok v heq with h1 | h2
  · exact Or.inl h1
  · exact Or.inr (hsub _ h2)

theorem merge_accept_order {ls : List (List TickEvent)} {out : List TickEvent}
    (h : Merge ls out) :
    ∀ emitted, (∀ l2 ∈ ls, acceptPrecededByAdd emitted l2) →
      acceptPrecededByAdd emitted out := by
  induction h with
  | nil =>
      intro emitted hls u tok v heq
      exact absurd heq (by simp)
  | take pre l post a out hm ih =>
      intro emitted hls u tok v heq
      have hmid : (a :: l) ∈ pre ++ (a :: l) :: post :=
        List.mem_append_right _ (List.mem_cons_self _ _)
      cases u with
      | nil =>
          simp only [List.nil_append] at heq
          injection heq with ha hv
          have hcomp := hls (a :: l) hmid [] tok l (by rw [ha]; rfl)
          rcases hcomp with h1 | h2
          · exact absurd h1 (by simp)
          · exact Or.inr h2
      | cons b u2 =>
          simp only [List.cons_append] at heq
          injection heq with hb hrest
          subst hb
          have hcomps : ∀ l2 ∈ pre ++ l :: post, acceptPrecededByAdd (a :: emitted) l2 := by
            intro l2 hl2
            rcases List.mem_append.1 hl2 with hpre | hrest2
            · exact acceptPrecededByAdd_weaken
                (hls l2 (List.mem_append_left _ hpre))
                (fun x hx => List.mem_cons_of_mem _ hx)
            · rcases List.mem_cons.1 hrest2 with heq2 | hpost
              · subst heq2
                intro u3 tok3 v3 heq3
                have := hls (a :: l2) hmid (a :: u3) tok3 v3 (by rw [heq3]; rfl)
                rcases this with h1 | h2
                · rcases List.mem_cons.1 h1 with h1a | h1u
                  · exact Or.inr (h1a ▸ List.mem_cons_self _ _)
                  · exact Or.inl h1u
                · exact Or.inr (List.mem_cons_of_mem _ h2)
              · exact acceptPrecededByAdd_weaken
                  (hls l2 (List.mem_append_right _ (List.mem_cons_of_mem _ hpost)))
                  (fun x hx => List.mem_cons_of_mem _ hx)
          rcases ih (a :: emitted) hcomps u2 tok v hrest with h1 | h2
          · exact Or.inl (List.mem_cons_of_mem _ h1)
          · rcases List.mem_cons.1 h2 with he | he
            · exact Or.inl (he ▸ List.mem_cons_self _ _)
            · exact Or.inr he
  | dropNil pre post out hm ih =>
      intro emitted hls
      refine ih emitted ?_
      intro l2 hl2
      rcases List.mem_append.1 hl2 with hpre | hpost
      · exact hls l2 (List.mem_append_left _ hpre)
      · exact hls l2 (List.mem_append_right _ (List.mem_cons_of_mem _ hpost))

theorem authorizeDomainEvents_shape
    (authz : String → Except String AcmeAuthorization) (dom : String) :
    authorizeDomainEvents authz dom = [] ∨
    ∃ tok, authorizeDomainEvents authz dom =
      [TickEvent.add tok, TickEvent.accept tok] := by
  unfold authorizeDomainEvents
  cases hz : authz dom with
  | error e => exact Or.inl rfl
  | ok a =>
      cases hf : findChallenge a with
      | error e => exact Or.inl (by simp [hf])
      | ok ch => exact Or.inr ⟨ch.token, by simp [hf]⟩

theorem authorizeDomainEvents_no_reset
    (authz : String → Except String AcmeAuthorization) (dom : String) :
    TickEvent.reset ∉ authorizeDomainEvents authz dom := by
  rcases authorizeDomainEvents_shape authz dom with h | ⟨tok, h⟩ <;> simp [h]

theorem authorizeDomainEvents_accept_order
    (authz : String → Except String AcmeAuthorization) (dom : String)
    (emitted : List TickEvent) :
    acceptPrecededByAdd emitted (authorizeDomainEvents authz dom) := by
  rcases authorizeDomainEvents_shape authz dom with h | ⟨tok, h⟩
  · intro u tok2 v heq
    rw [h] at heq
    exact absurd heq (by simp)
  · intro u tok2 v heq
    rw [h] at heq
    cases u with
    | nil => simp at heq
    | cons b u2 =>
        simp only [List.cons_append] at heq
        injection heq with hb hrest
        cases u2 with
        | nil =>
            simp only [List.nil_append] at hrest
            injection hrest with h1 h2
            injection h1 with htok
            subst hb
            subst htok
            exact Or.inl (List.mem_cons_self _ _)
        | cons c u3 =>
            simp only [List.cons_append] at hrest
            injection hrest with hc hrest2
            exact absurd hrest2 (by simp)

/-- The per-domain event components spawned by `CreateCert` (le.go) for
one secret: one component per driven domain. -/
def secretTickComponents (authz : String → Except String AcmeAuthorization)
    (sconf : SecretConf) (alreadyAuthDomains : List String) : List (List TickEvent) :=
  (createCertAuthDomains sconf.domains alreadyAuthDomains).map
    (authorizeDomainEvents authz)

/-- The event trace of the per-secret phase of a tick (`run` in main.go):
the refreshed secrets are worked on sequentially, each contributing an
interleaving of its per-domain components. -/
inductive SecretTraces (authz : String → Except String AcmeAuthorization) :
    List (SecretConf × List String) → List TickEvent → Prop where
  | nil : SecretTraces authz [] []
  | cons (sc : SecretConf) (already : List String)
      (rest : List (SecretConf × List String)) (tr tr2 : List TickEvent) :
      Merge (secretTickComponents authz sc already) tr →
      SecretTraces authz rest tr2 →
      SecretTraces authz ((sc, already) :: rest) (tr ++ tr2)

/-- The full responder event trace of one tick of `run` (main.go):
`Reset` first, then the per-secret traces in order. -/
def runTickTrace (authz : String → Except String AcmeAuthorization)
    (work : List (SecretConf × List String)) (tr : List TickEvent) : Prop :=
  ∃ body, SecretTraces authz work body ∧ tr = TickEvent.reset :: body

theorem secretTraces_no_reset {authz : String → Except String AcmeAuthorization}
    {work : List (SecretConf × List String)} {body : List TickEvent}
    (h : SecretTraces authz work body) : TickEvent.reset ∉ body := by
  induction h with
  | nil => simp
  | cons sc already rest tr tr2 hm htr ih =>
      intro hmem
      rcases List.mem_append.1 hmem with h1 | h2
      · rcases merge_mem hm _ h1 with ⟨l2, hl2, hxl2⟩
        rcases List.mem_map.1 hl2 with ⟨dom, _, hdom⟩
        exact authorizeDomainEvents_no_reset authz dom (hdom ▸ hxl2)
      · exact ih h2

theorem acceptPrecededByAdd_append {tr tr2 : List TickEvent}
    (h1 : acceptPrecededByAdd [] tr) (h2 : acceptPrecededByAdd [] tr2) :
    acceptPrecededByAdd [] (tr ++ tr2) := by
  intro u tok v heq
  rcases List.append_eq_append_iff.1 heq.symm with ⟨w, hw1, hw2⟩ | ⟨w, hw1, hw2⟩
  · cases w with
    | nil =>
        rcases h2 [] tok v (by simpa using hw2.symm) with ha | ha
        · exact absurd ha (by simp)
        · exact absurd ha (by simp)
    | cons c w2 =>
        simp only [List.cons_append] at hw2
        injection hw2 with hc hrest
        rcases h1 u tok w2 (by rw [hw1, ← hc]) with ha | ha
        · exact Or.inl ha
        · exact absurd ha (by simp)
  · rcases h2 w tok v hw2 with ha | ha
    · exact Or.inl (by rw [hw1]; exact List.mem_append_right _ ha)
    · exact absurd ha (by simp)

theorem secretTraces_accept_order {authz : String → Except String AcmeAuthorization}
    {work : List (SecretConf × List String)} {body : List TickEvent}
    (h : SecretTraces authz work body) : acceptPrecededByAdd [] body := by
  induction h with
  | nil =>
      intro u tok v heq
      exact absurd heq (by simp)
  | cons sc already rest tr tr2 hm htr ih =>
      refine acceptPrecededByAdd_append ?_ ih
      refine merge_accept_order hm [] ?_
      intro l2 hl2
      rcases List.mem_map.1 hl2 with ⟨dom, _, hdom⟩
      exact hdom ▸ authorizeDomainEvents_accept_order authz dom []

/-- C8: in every tick trace, `Reset` occurs exactly once; every
`AddAuthorization` is strictly preceded by that `Reset`; and every
`Accept` post is preceded by the `AddAuthorization` of the same
challenge token. -/
theorem tick_reset_add_accept_order
    (authz : String → Except String AcmeAuthorization)
    (work : List (SecretConf × List String)) (tr : List TickEvent)
    (h : runTickTrace authz work tr) :
    tr.count TickEvent.reset = 1 ∧
    (∀ u tok v, tr = u ++ TickEvent.add tok :: v → TickEvent.reset ∈ u) ∧
    (∀ u tok v, tr = u ++ TickEvent.accept tok :: v → TickEvent.add tok ∈ u) := by
  obtain ⟨body, hbody, htr⟩ := h
  have hnores := secretTraces_no_reset hbody
  refine ⟨?_, ?_, ?_⟩
  · rw [htr, List.count_cons_self, List.count_eq_zero.2 hnores]
  · intro u tok v heq
    rw [htr] at heq
    cases u with
    | nil =>
        simp only [List.nil_append] at heq
        exact absurd (congrArg List.head? heq) (by simp)
    | cons b u2 =>
        simp only [List.cons_append] at heq
        injection heq with hb hrest
        exact hb ▸ List.mem_cons_self _ _
  · intro u tok v heq
    rw [htr] at heq
    cases u with
    | nil =>
        simp only [List.nil_append] at heq
        exact absurd (congrArg List.head? heq) (by simp)
    | cons b u2 =>
        simp only [List.cons_append] at heq
        injection heq with hb hrest
        rcases secretTraces_accept_order hbody u2 tok v hrest with ha | ha
        · exact List.mem_cons_of_mem _ ha
        · exact absurd ha (by simp)

/-- The authorize oracle of the C8 witness: every domain yields one
`http-01` challenge with token `tok1`. -/
def tickOracle : String → Except String AcmeAuthorization :=
  fun _ =>
    .ok { uri := "auth-uri",
          challenges := [{ ctype := "http-01", token := "tok1" }],
          combinations := [[0]] }

/-- The C8 witness workload: one refreshed secret with one domain. -/
def tickWork : List (SecretConf × List String) :=
  [(⟨"default", "test", ["a"], false⟩, [])]

/-- The C8 witness trace. -/
def tickTr : List TickEvent :=
  [TickEvent.reset, TickEvent.add "tok1", TickEvent.accept "tok1"]

/-- Witness for C8: a concrete one-secret, one-domain tick trace. -/
theorem tick_reset_add_accept_order_witness :
    runTickTrace tickOracle tickWork tickTr ∧
    tickTr.count TickEvent.reset = 1 := by
  have m1 : Merge ([] : List (List TickEvent)) [] := Merge.nil
  have m2 : Merge [([] : List TickEvent)] [] := Merge.dropNil [] [] [] m1
  have m3 : Merge [[TickEvent.accept "tok1"]] [TickEvent.accept "tok1"] :=
    Merge.take [] [] [] (TickEvent.accept "tok1") [] m2
  have m4 : Merge [[TickEvent.add "tok1", TickEvent.accept "tok1"]]
      [TickEvent.add "tok1", TickEvent.accept "tok1"] :=
    Merge.take [] [TickEvent.accept "tok1"] [] (TickEvent.add "tok1")
      [TickEvent.accept "tok1"] m3
  have hst : SecretTraces tickOracle tickWork
      ([TickEvent.add "tok1", TickEvent.accept "tok1"] ++ []) :=
    SecretTraces.cons _ _ _ _ _ m4 SecretTraces.nil
  have hrun : runTickTrace tickOracle tickWork tickTr := ⟨_, hst, rfl⟩
  exact ⟨hrun, (tick_reset_add_accept_order tickOracle tickWork tickTr hrun).1⟩

/-! ## Claims C9 and C10: the debug gate (main.go `isBlockedRequest`) -/

/-- An IPv4 address as `net.ParseIP` returns it.  `isBlockedRequest`
always feeds `ParseIP` the prefix of `RemoteAddr` before the first
colon, which is colon-free, so the IPv6 branch of `ParseIP` is
unreachable and only the dotted-quad form is modelled. -/
inductive GoIP where
  | v4 (a b c d : Nat)
  deriving DecidableEq, Repr

/-- Split a character list on dots, keeping empty fields. -/
def splitOnDot : List Char → List (List Char)
  | [] => [[]]
  | c :: rest =>
      let r := splitOnDot rest
      if c = '.' then [] :: r
      else
        match r with
        | [] => [[c]]
        | h :: t => (c :: h) :: t

/-- One dotted-quad field as `net.ParseIP` accepts it: non-empty, all
digits, no leading zero (Go 1.17+), value at most 255. -/
def parseV4Field (cs : List Char) : Option Nat :=
  if cs.isEmpty then none
  else if cs.all Char.isDigit then
    if 1 < cs.length ∧ cs.headD '0' = '0' then none
    else
      let v := cs.foldl (fun n c => n * 10 + (c.toNat - 48)) 0
      if v ≤ 255 then some v else none
  else none

/-- Models `net.ParseIP` on colon-free input: a string with a dot is
parsed as a dotted quad, anything else (including garbage such as
`"notanip"` or `"["`) yields nil, modelled as `none`. -/
def goParseIP (s : String) : Option GoIP :=
  if s.data.contains '.' then
    match splitOnDot s.data with
    | [f1, f2, f3, f4] =>
        match parseV4Field f1, parseV4Field f2, parseV4Field f3, parseV4Field f4 with
        | some a, some b, some c, some d => some (GoIP.v4 a b c d)
        | _, _, _, _ => none
    | _ => none
  else none

/-- Models `IP.IsLoopback` including the nil receiver: a nil `IP` (parse
failure) reports `false`, and a parsed IPv4 address is loopback exactly
when its first octet is 127. -/
def goIPIsLoopback : Option GoIP → Bool
  | none => false
  | some (GoIP.v4 a _ _ _) => a == 127

/-- Embeds the path test of `isBlockedRequest` (main.go):
`r.URL.Path == "/debug" || strings.HasPrefix(r.URL.Path, "/debug/")`. -/
def isDebugPath (path : String) : Bool :=
  path == "/debug" || "/debug/".data.isPrefixOf path.data

/-- Embeds `isBlockedRequest` (main.go): on a debug path, find the first
colon of `RemoteAddr`; with no colon return false; otherwise parse the
prefix before the colon and block unless it is a loopback IP. -/
def isBlockedRequest (path remoteAddr : String) : Bool :=
  if isDebugPath path then
    match remoteAddr.data.findIdx? (fun c => decide (c = ':')) with
    | none => false
    | some i => !(goIPIsLoopback (goParseIP ⟨remoteAddr.data.take i⟩))
  else false

/-- What the `/debug/` handler in `main` (main.go) answers: 404 via
`http.NotFound`, or the request is served (passed on to the diagnostics
handlers). -/
inductive DebugOutcome where
  | notFound
  | served
  deriving DecidableEq, Repr

/-- Embeds the gate of the `/debug/` handler registered in `main`
(main.go): 404 when remote debugging is disallowed and the request is
blocked, otherwise serve. -/
def debugHandler (allowRemoteDebug : Bool) (path remoteAddr : String) : DebugOutcome :=
  if !allowRemoteDebug && isBlockedRequest path remoteAddr then .notFound
  else .served

/-- Modelled from the claim's words: whether the request's remote address
is a loopback address — its host portion (the part before the first
colon when one is present, the whole string otherwise) is a loopback
IP. -/
def specRemoteAddrIsLoopback (addr : String) : Bool :=
  match addr.data.findIdx? (fun c => decide (c = ':')) with
  | none => goIPIsLoopback (goParseIP addr)
  | some i => goIPIsLoopback (goParseIP ⟨addr.data.take i⟩)

/-- C9 counterexample: with `allow_remote_debug` false, a `/debug` request
from the non-loopback remote address `93.184.216.34` (no port, hence no
colon) is served, though the claim requires every non-loopback remote to
be answered 404. -/
theorem debug_gate_counterexample :
    debugHandler false "/debug" "93.184.216.34" = DebugOutcome.served ∧
    specRemoteAddrIsLoopback "93.184.216.34" = false ∧
    DebugOutcome.served ≠ DebugOutcome.notFound := by
  refine ⟨by decide, by decide, by decide⟩

/-- C9 (amended): on a debug path with `allow_remote_debug` false, the
handler answers 404 exactly when the remote address contains a colon and
its prefix before the first colon does not parse as a loopback IP (parse
failures count as non-loopback); an address with no colon is always
served, as is every non-debug path.  In particular `127.0.0.1:1111` is
served and `93.184.216.34:1111` is blocked. -/
theorem debug_gate_amended :
    (∀ (allow : Bool) (path addr : String) (i : Nat),
      isDebugPath path = true →
      addr.data.findIdx? (fun c => decide (c = ':')) = some i →
      (debugHandler allow path addr = DebugOutcome.notFound ↔
        (allow = false ∧ goIPIsLoopback (goParseIP ⟨addr.data.take i⟩) = false))) ∧
    (∀ (allow : Bool) (path addr : String),
      addr.data.findIdx? (fun c => decide (c = ':')) = none →
      debugHandler allow path addr = DebugOutcome.served) ∧
    (∀ (allow : Bool) (path addr : String),
      isDebugPath path = false →
      debugHandler allow path addr = DebugOutcome.served) := by
  refine ⟨?_, ?_, ?_⟩
  · intro allow path addr i hdbg hidx
    simp only [debugHandler, isBlockedRequest, hdbg, hidx, if_true]
    cases allow with
    | false =>
        cases hloop : goIPIsLoopback (goParseIP ⟨addr.data.take i⟩) with
        | false => simp [hloop]
        | true => simp [hloop]
    | true => simp
  · intro allow path addr hidx
    simp only [debugHandler, isBlockedRequest, hidx]
    cases hdbg : isDebugPath path with
    | false => simp [hdbg]
    | true => simp [hdbg]
  · intro allow path addr hdbg
    simp [debugHandler, isBlockedRequest, hdbg]

/-- Witness for the amended C9: the loopback address `127.0.0.1:1111`. -/
theorem debug_gate_amended_witness :
    debugHandler false "/debug" "127.0.0.1:1111" = DebugOutcome.notFound ↔
      (false = false ∧
        goIPIsLoopback (goParseIP ⟨("127.0.0.1:1111" : String).data.take 9⟩) = false) :=
  debug_gate_amended.1 false "/debug" "127.0.0.1:1111" 9 (by decide) (by decide)

/-- C10 counterexample: `isBlockedRequest` blocks a `/debug` request from
`notanip:1111`, whose prefix before the colon parses as no IP at all —
contradicting the claim that the gate only ever blocks when the prefix
parses as a non-loopback IP. -/
theorem isBlockedRequest_unparseable_counterexample :
    isBlockedRequest "/debug" "notanip:1111" = true ∧
    goParseIP "notanip" = none := by
  refine ⟨by decide, by decide⟩

/-- C10 (amended): on a request whose `RemoteAddr` contains no colon the
gate fails open (returns false) even on debug paths with remote debugging
disallowed; and the gate blocks exactly the requests with a debug path
whose `RemoteAddr` prefix before the first colon is not a loopback IP —
whether it parses as a non-loopback IP or fails to parse entirely
(`ParseIP` nil, whose `IsLoopback` is false). -/
theorem isBlockedRequest_characterization :
    (∀ (path addr : String),
      addr.data.findIdx? (fun c => decide (c = ':')) = none →
      isBlockedRequest path addr = false) ∧
    (∀ (path addr : String) (i : Nat),
      addr.data.findIdx? (fun c => decide (c = ':')) = some i →
      (isBlockedRequest path addr = true ↔
        (isDebugPath path = true ∧
          goIPIsLoopback (goParseIP ⟨addr.data.take i⟩) = false))) := by
  constructor
  · intro path addr hidx
    simp only [isBlockedRequest, hidx]
    cases hdbg : isDebugPath path with
    | false => simp [hdbg]
    | true => simp [hdbg]
  · intro path addr i hidx
    simp only [isBlockedRequest, hidx]
    cases hdbg : isDebugPath path with
    | false => simp [hdbg]
    | true =>
        cases hloop : goIPIsLoopback (goParseIP ⟨addr.data.take i⟩) with
        | false => simp [hdbg, hloop]
        | true => simp [hdbg, hloop]

/-- Witness for the amended C10: the non-loopback address
`93.184.216.34:1111` on the `/debug` path. -/
theorem isBlockedRequest_characterization_witness :
    isBlockedRequest "/debug" "93.184.216.34:1111" = true ↔
      (isDebugPath "/debug" = true ∧
        goIPIsLoopback (goParseIP ⟨("93.184.216.34:1111" : String).data.take 13⟩) = false) :=
  isBlockedRequest_characterization.2 "/debug" "93.184.216.34:1111" 13 (by decide)

end Lekube
